import Mathlib

/-!
Verification of the image-editing library `imageEdit.py`
(corner rounding, drop shadows, resizing, padding removal,
black-and-white conversion).

Images are modelled as RGBA rasters: a width, a height, and a row-major
list of RGBA pixels.  The image-library primitives the code calls
(new-canvas, crop, paste-with-mask, blur filter, resize, draw-ellipse,
colour histogram) are modelled executably below; the library's own
functions (`roundCorners`, `addDropShadowComplex`, `resizeImage`,
`removeImagePadding`, `convertBlackAndWhite`, ...) are then translated
statement by statement from the source.

Where the source mutates Python objects in place (`ImageDraw.ellipse`,
`Image.paste`), a heap-passing variant is also given: the heap is a list
of image buffers and a reference is an index into it, so that claims
about aliasing and in-place mutation become statable.
-/

/-- Pixel colour: an RGBA quadruple, each channel intended in [0,255]. -/
structure RGBA where
  r : Nat
  g : Nat
  b : Nat
  a : Nat
deriving DecidableEq

/-- Raster image: width, height and a row-major pixel list. -/
structure Img where
  width : Nat
  height : Nat
  pix : List RGBA
deriving DecidableEq

/-- Transparent black, PIL colour string "#00000000". -/
def colClear : RGBA := ⟨0, 0, 0, 0⟩

/-- Opaque white, PIL colour string "#ffffffff". -/
def colWhite : RGBA := ⟨255, 255, 255, 255⟩

/-- Opaque black. -/
def colBlack : RGBA := ⟨0, 0, 0, 255⟩

/-- Semi-transparent black, PIL colour string "#00000055" (alpha 0x55 = 85). -/
def shadowGrey : RGBA := ⟨0, 0, 0, 85⟩

/-- Transparent white, PIL colour string "#ffffff00". -/
def clearWhite : RGBA := ⟨255, 255, 255, 0⟩

/-- Pixel lookup at (x, y); out-of-range reads default to transparent black. -/
def Img.get (im : Img) (x y : Nat) : RGBA := im.pix.getD (y * im.width + x) colClear

/-- The zero-sized image, used as the default heap entry. -/
def emptyImg : Img := ⟨0, 0, []⟩

/-- Model of PIL `Image.new(mode, (w, h), colour)`: a uniform canvas. -/
def imageNew (w h : Nat) (c : RGBA) : Img := ⟨w, h, List.replicate (w * h) c⟩

/-- Model of PIL `convert("RGBA")`: the model is RGBA-only, so this is the
identity; it is kept so the translated code mirrors the source calls. -/
def convertRGBA (im : Img) : Img := im

/-- PIL's MULDIV255 rounding primitive used when blending paste channels. -/
def muldiv255 (x y : Nat) : Nat :=
  let t := x * y + 128
  (t / 256 + t) / 256

/-- Per-channel blend of destination and source under mask value m. -/
def blendChannel (m d s : Nat) : Nat := muldiv255 d (255 - m) + muldiv255 s m

/-- Blend two pixels under mask value m (PIL paste-with-mask semantics for
intermediate mask values). -/
def blendPix (d s : RGBA) (m : Nat) : RGBA :=
  ⟨blendChannel m d.r s.r, blendChannel m d.g s.g, blendChannel m d.b s.b, blendChannel m d.a s.a⟩

/-- One destination pixel of a masked paste: where the mask alpha is 255 the
source pixel is copied as is, where it is 0 the destination is kept, and
intermediate values blend (PIL `Image.paste(src, pos, mask)` semantics).
Outside the pasted region the destination is kept. -/
def pastePixel (dst src : Img) (px py : ℤ) (mask : Img) (x y : Nat) : RGBA :=
  let sx : ℤ := (x : ℤ) - px
  let sy : ℤ := (y : ℤ) - py
  if 0 ≤ sx ∧ sx < (src.width : ℤ) ∧ 0 ≤ sy ∧ sy < (src.height : ℤ) then
    let m := (mask.get sx.toNat sy.toNat).a
    if m = 255 then src.get sx.toNat sy.toNat
    else if m = 0 then dst.get x y
    else blendPix (dst.get x y) (src.get sx.toNat sy.toNat) m
  else dst.get x y

/-- Model of PIL `dst.paste(src, (px, py), mask)`; the mask has the source's
size and its alpha band weights the composite. -/
def pasteMask (dst src : Img) (px py : ℤ) (mask : Img) : Img :=
  { dst with pix := (List.range (dst.width * dst.height)).map (fun i =>
      pastePixel dst src px py mask (i % dst.width) (i / dst.width)) }

/-- One destination pixel of an unmasked paste: the source pixel replaces the
destination wherever the pasted region covers it. -/
def pastePixelNoMask (dst src : Img) (px py : ℤ) (x y : Nat) : RGBA :=
  let sx : ℤ := (x : ℤ) - px
  let sy : ℤ := (y : ℤ) - py
  if 0 ≤ sx ∧ sx < (src.width : ℤ) ∧ 0 ≤ sy ∧ sy < (src.height : ℤ) then
    src.get sx.toNat sy.toNat
  else dst.get x y

/-- Model of PIL `dst.paste(src, (px, py))` without a mask.  Pasting an empty
source region changes nothing, matching PIL where such a paste is a no-op. -/
def pasteNoMask (dst src : Img) (px py : ℤ) : Img :=
  if src.width = 0 ∨ src.height = 0 then dst
  else
    { dst with pix := (List.range (dst.width * dst.height)).map (fun i =>
        pastePixelNoMask dst src px py (i % dst.width) (i / dst.width)) }

/-- Model of PIL `im.crop((l, t, r, b))`: the result has size
((r-l), (b-t)) clamped at zero, reads source pixels where the box overlaps
the source, and fills with transparent black elsewhere. -/
def cropI (im : Img) (l t r b : ℤ) : Img :=
  let w := (r - l).toNat
  let h := (b - t).toNat
  { width := w, height := h,
    pix := (List.range (w * h)).map (fun i =>
      let x := i % w
      let y := i / w
      let sx := l + (x : ℤ)
      let sy := t + (y : ℤ)
      if 0 ≤ sx ∧ sx < (im.width : ℤ) ∧ 0 ≤ sy ∧ sy < (im.height : ℤ) then
        im.get sx.toNat sy.toNat
      else colClear) }

/-- Modelled from PIL `ImageDraw.ellipse` fill: a pixel is filled when its
centre lies inside the ellipse inscribed in the bounding box
(x0, y0, x1, y1).  PIL's exact rasterisation of boundary pixels may differ;
no claim below depends on which boundary pixels are filled. -/
def inEllipse (x y : Nat) (x0 y0 x1 y1 : ℤ) : Bool :=
  let dx := x1 - x0
  let dy := y1 - y0
  decide ((2 * (x : ℤ) + 1 - (x0 + x1)) ^ 2 * dy ^ 2
      + (2 * (y : ℤ) + 1 - (y0 + y1)) ^ 2 * dx ^ 2 ≤ dx ^ 2 * dy ^ 2)

/-- Model of `ImageDraw.Draw(im).ellipse(box, fill)`: fills the ellipse
pixels with the fill colour, keeping the rest of the image. -/
def drawEllipse (im : Img) (x0 y0 x1 y1 : ℤ) (fill : RGBA) : Img :=
  { im with pix := (List.range (im.width * im.height)).map (fun i =>
      let x := i % im.width
      let y := i / im.width
      if inEllipse x y x0 y0 x1 y1 then fill else im.get x y) }

/-- The sixteen perimeter offsets of the 5x5 PIL `ImageFilter.BLUR` kernel
(weight one on the perimeter, zero inside, scale sixteen). -/
def blurRing : List (ℤ × ℤ) :=
  [(-2, -2), (-1, -2), (0, -2), (1, -2), (2, -2),
   (-2, -1), (2, -1), (-2, 0), (2, 0), (-2, 1), (2, 1),
   (-2, 2), (-1, 2), (0, 2), (1, 2), (2, 2)]

/-- Convolved value of one interior pixel under the BLUR kernel. -/
def blurAt (im : Img) (x y : Nat) : RGBA :=
  let s := blurRing.foldl (fun (acc : Nat × Nat × Nat × Nat) d =>
      let p := im.get (((x : ℤ) + d.1).toNat) (((y : ℤ) + d.2).toNat)
      (acc.1 + p.r, acc.2.1 + p.g, acc.2.2.1 + p.b, acc.2.2.2 + p.a))
    (0, 0, 0, 0)
  ⟨s.1 / 16, s.2.1 / 16, s.2.2.1 / 16, s.2.2.2 / 16⟩

/-- Model of PIL `im.filter(ImageFilter.BLUR)`: same-size output, the two
outermost rows and columns copied from the input, the interior convolved
with the 5x5 perimeter kernel scaled by sixteen. -/
def filterBLUR (im : Img) : Img :=
  { im with pix := (List.range (im.width * im.height)).map (fun i =>
      let x := i % im.width
      let y := i / im.width
      if 2 ≤ x ∧ 2 ≤ y ∧ x + 2 < im.width ∧ y + 2 < im.height then blurAt im x y
      else im.get x y) }

/-- The source's `for _ in range(iterations): background = background.filter(BLUR)`
loop: the blur filter applied sequentially n times. -/
def applyBlurN : Nat → Img → Img
  | 0, im => im
  | n + 1, im => applyBlurN n (filterBLUR im)

/-- Model of PIL `im.resize((w, h), ANTIALIAS)`: the output has exactly the
requested dimensions; the resampling kernel is abstracted to coordinate
sampling, since no claim depends on resampled pixel values, only on the
output geometry. -/
def pilResize (im : Img) (w h : Nat) : Img :=
  { width := w, height := h,
    pix := (List.range (w * h)).map (fun i =>
      let x := i % w
      let y := i / w
      im.get (x * im.width / w) (y * im.height / h)) }

/-!
Library functions, translated statement by statement from
`src/lib/imageEdit.py`.
-/

/-- The alpha mask built by `roundCorners` (source lines 46-55): a circle of
diameter 2*radius drawn on a transparent canvas, whose four quadrant crops
overwrite the corners of a fully opaque full-size canvas. -/
def roundCornersMask (w h radius : Nat) : Img :=
  let circle := drawEllipse (imageNew (2 * radius) (2 * radius) colClear)
    0 0 (2 * radius) (2 * radius) colWhite
  let alpha := imageNew w h colWhite
  let alpha := pasteNoMask alpha (cropI circle 0 0 (radius : ℤ) (radius : ℤ)) 0 0
  let alpha := pasteNoMask alpha (cropI circle 0 (radius : ℤ) (radius : ℤ) (2 * radius : ℤ))
    0 ((h : ℤ) - (radius : ℤ))
  let alpha := pasteNoMask alpha (cropI circle (radius : ℤ) 0 (2 * radius : ℤ) (radius : ℤ))
    ((w : ℤ) - (radius : ℤ)) 0
  pasteNoMask alpha
    (cropI circle (radius : ℤ) (radius : ℤ) (2 * radius : ℤ) (2 * radius : ℤ))
    ((w : ℤ) - (radius : ℤ)) ((h : ℤ) - (radius : ℤ))

/-- Source `roundCorners(image, radius)` (lines 32-57): builds the corner
mask and pastes the image onto a fully transparent background through it. -/
def roundCorners (image : Img) (radius : Nat) : Img :=
  let background := imageNew image.width image.height colClear
  pasteMask background image 0 0 (convertRGBA (roundCornersMask image.width image.height radius))

/-- Source `roundCornersPercent(image, radius)` (lines 15-29):
radius in pixels is floor(min(w, h) * radius / 100). -/
def roundCornersPercent (image : Img) (radius : Nat) : Img :=
  let size := min image.width image.height
  let rad := size * radius / 100
  roundCorners image rad

/-!
Heap-passing translation of `roundCorners`, used to settle the aliasing
claim.  The heap is a list of image buffers; a reference is an index.
`Image.new` and `crop` allocate, `ImageDraw.ellipse` and `paste` write to
their target buffer in place, exactly as the Python objects behave.
-/

/-- Heap translation of `roundCorners`: the parameter is a reference into
the heap; every allocation appends a buffer and every in-place write is a
`List.set` at the written object's reference.  Returns the final heap and
the reference the source returns (the `background` buffer). -/
def roundCornersH (heap : List Img) (imageRef radius : Nat) : List Img × Nat :=
  let image := heap.getD imageRef emptyImg
  let circleRef := heap.length
  let heap := heap ++ [imageNew (2 * radius) (2 * radius) colClear]
  let heap := heap.set circleRef
    (drawEllipse (heap.getD circleRef emptyImg) 0 0 (2 * radius) (2 * radius) colWhite)
  let alphaRef := heap.length
  let heap := heap ++ [imageNew image.width image.height colWhite]
  let backgroundRef := heap.length
  let heap := heap ++ [imageNew image.width image.height colClear]
  let w := image.width
  let h := image.height
  let circle := heap.getD circleRef emptyImg
  let heap := heap.set alphaRef
    (pasteNoMask (heap.getD alphaRef emptyImg)
      (cropI circle 0 0 (radius : ℤ) (radius : ℤ)) 0 0)
  let heap := heap.set alphaRef
    (pasteNoMask (heap.getD alphaRef emptyImg)
      (cropI circle 0 (radius : ℤ) (radius : ℤ) (2 * radius : ℤ)) 0 ((h : ℤ) - (radius : ℤ)))
  let heap := heap.set alphaRef
    (pasteNoMask (heap.getD alphaRef emptyImg)
      (cropI circle (radius : ℤ) 0 (2 * radius : ℤ) (radius : ℤ)) ((w : ℤ) - (radius : ℤ)) 0)
  let heap := heap.set alphaRef
    (pasteNoMask (heap.getD alphaRef emptyImg)
      (cropI circle (radius : ℤ) (radius : ℤ) (2 * radius : ℤ) (2 * radius : ℤ))
      ((w : ℤ) - (radius : ℤ)) ((h : ℤ) - (radius : ℤ)))
  let heap := heap.set backgroundRef
    (pasteMask (heap.getD backgroundRef emptyImg) image 0 0
      (convertRGBA (heap.getD alphaRef emptyImg)))
  (heap, backgroundRef)

/-- Source `resizeImageAbs(image, width, height)` (lines 116-128):
`image.resize((width, height), Image.ANTIALIAS)`. -/
def resizeImageAbs (image : Img) (width height : Nat) : Img :=
  pilResize image width height

/-- Source `resizeImageSquare(image, size)` (lines 132-143). -/
def resizeImageSquare (image : Img) (size : Nat) : Img :=
  resizeImageAbs image size size

/-- Python `int()` truncation toward zero, on rationals. -/
def pyInt (q : ℚ) : ℤ := if q < 0 then -⌊-q⌋ else ⌊q⌋

/-- Source `resizeImage(image, factor)` (lines 147-158):
`resizeImageAbs(image, int(image.width*factor), int(image.height*factor))`.
The Python float factor is modelled as a rational; for the factors any
claim uses (2 and 0.5) the float arithmetic is exact, so the models agree. -/
def resizeImage (image : Img) (factor : ℚ) : Img :=
  resizeImageAbs image (pyInt ((image.width : ℚ) * factor)).toNat
    (pyInt ((image.height : ℚ) * factor)).toNat

/-- Source `roundCornersAntiAlias(image, radius)` (lines 162-175):
supersample by 2, round with doubled radius, downsample by 1/2. -/
def roundCornersAntiAlias (image : Img) (radius : Nat) : Img :=
  let imageTemp := resizeImage image 2
  let imageTemp := roundCorners imageTemp (radius * 2)
  resizeImage imageTemp (1 / 2)

/-- The intermediate canvas of `addDropShadowComplex` (source lines 87-111),
everything before the final resize: the oversized background, the flat
shadow silhouette pasted through the image's alpha, the sequential blurs,
and the original image pasted on top through its own alpha. -/
def addDropShadowCanvas (image : Img) (iterations border : Nat) (offset : ℤ × ℤ)
    (backgroundColour shadowColour : RGBA) : Img :=
  let fullWidth := image.width + offset.1.natAbs + 2 * border
  let fullHeight := image.height + offset.2.natAbs + 2 * border
  let background := imageNew fullWidth fullHeight backgroundColour
  let shadow := imageNew image.width image.height shadowColour
  let shadowLeft := (border : ℤ) + max offset.1 0
  let shadowTop := (border : ℤ) + max offset.2 0
  let background := pasteMask background (convertRGBA shadow) shadowLeft shadowTop
    (convertRGBA image)
  let background := applyBlurN iterations background
  let imgLeft := (border : ℤ) - min offset.1 0
  let imgTop := (border : ℤ) - min offset.2 0
  pasteMask background (convertRGBA image) imgLeft imgTop (convertRGBA image)

/-- Source `addDropShadowComplex` (lines 73-113): the intermediate canvas
resized back to the original dimensions. -/
def addDropShadowComplex (image : Img) (iterations border : Nat) (offset : ℤ × ℤ)
    (backgroundColour shadowColour : RGBA) : Img :=
  resizeImageAbs (addDropShadowCanvas image iterations border offset backgroundColour shadowColour)
    image.width image.height

/-- Source `addDropShadowSimple(image, offset)` (lines 60-71):
`border = max(map(abs, offset))`, then the complex variant with 11
iterations, transparent-white background and semi-transparent black shadow. -/
def addDropShadowSimple (image : Img) (offset : ℤ × ℤ) : Img :=
  let border := max offset.1.natAbs offset.2.natAbs
  addDropShadowComplex image 11 border offset clearWhite shadowGrey

/-- Modelled from the spec, section 4.2 steps 1-5: the drop-shadow pipeline
as the specification words it, to be compared with the translation of the
source (`addDropShadowCanvas`).  Step 1 computes the oversized dimensions,
step 2 allocates the canvases, step 3 stamps the silhouette through the
source image's alpha, step 4 blurs sequentially, step 5 composites the
original image through its own alpha. -/
def dropShadowSpecCanvas (image : Img) (iterations border : Nat) (offset : ℤ × ℤ)
    (backgroundColour shadowColour : RGBA) : Img :=
  let fullW := image.width + offset.1.natAbs + 2 * border
  let fullH := image.height + offset.2.natAbs + 2 * border
  let canvas := imageNew fullW fullH backgroundColour
  let silhouette := imageNew image.width image.height shadowColour
  let stamped := pasteMask canvas (convertRGBA silhouette)
    ((border : ℤ) + max offset.1 0) ((border : ℤ) + max offset.2 0) (convertRGBA image)
  let blurred := applyBlurN iterations stamped
  pasteMask blurred (convertRGBA image)
    ((border : ℤ) - min offset.1 0) ((border : ℤ) - min offset.2 0) (convertRGBA image)

/-- Source `removeImagePadding(image, padding)` (lines 256-266):
`image.crop((padding, padding, image.width - padding, image.height - padding))`. -/
def removeImagePadding (image : Img) (padding : Nat) : Img :=
  cropI image (padding : ℤ) (padding : ℤ)
    ((image.width : ℤ) - (padding : ℤ)) ((image.height : ℤ) - (padding : ℤ))

/-- Heap translation of `removeImagePadding`: `crop` allocates a new buffer
and writes nothing into existing ones. -/
def removeImagePaddingH (heap : List Img) (imageRef padding : Nat) : List Img × Nat :=
  let image := heap.getD imageRef emptyImg
  (heap ++ [removeImagePadding image padding], heap.length)

/-!
Black-and-white conversion (`convertBlackAndWhite`, source lines 284-346).
Python exceptions (IndexError from indexing a short histogram, TypeError
from sorting the None that `getcolors` returns past its colour cap) are
modelled by an `Option` result: `none` means the call raises instead of
returning an image.
-/

/-- The four modes the source accepts. -/
inductive BWMode
  | filterDarker
  | filterLighter
  | background
  | foreground
deriving DecidableEq

/-- Pillow's RGB-to-L ("grayscale") conversion, ITU-R 601-2 with the exact
fixed-point rounding Pillow uses: (19595 R + 38470 G + 7471 B + 2^15) / 2^16. -/
def luminance (p : RGBA) : Nat :=
  (19595 * p.r + 38470 * p.g + 7471 * p.b + 32768) / 65536

/-- Modelled from the source's `im.convert('L'); im.thumbnail((1, 1));
im.getpixel((0, 0))` (lines 319-321).  On an image with no pixels the
thumbnail stays empty and `getpixel((0, 0))` raises IndexError, modelled as
`none`.  Otherwise the single pixel of the 1x1 thumbnail, abstracted as the
mean luminance; the exact resampled value is immaterial to every claim: it
is only ever used as a threshold scalar. -/
def averageColour (im : Img) : Option Nat :=
  if im.pix.length = 0 then none
  else some ((im.pix.foldl (fun acc p => acc + luminance p) 0) / im.pix.length)

/-- Accumulator pass keeping the first occurrence of each distinct colour. -/
def dedupAux : List RGBA → List RGBA → List RGBA
  | [], acc => acc.reverse
  | c :: rest, acc => if c ∈ acc then dedupAux rest acc else dedupAux rest (c :: acc)

/-- Distinct colours of a pixel list, in first-occurrence order. -/
def dedup (l : List RGBA) : List RGBA := dedupAux l []

/-- Number of distinct colours in an image. -/
def numDistinct (im : Img) : Nat := (dedup im.pix).length

/-- Model of PIL `im.getcolors()` with its default 256-colour cap: `none`
(Python None) when the image has more than 256 distinct colours, otherwise
the list of (count, colour) pairs.  PIL's pair order is unspecified; the
model uses first-occurrence order, and no claim depends on the order. -/
def getcolors (im : Img) : Option (List (Nat × RGBA)) :=
  let ds := dedup im.pix
  if 256 < ds.length then none
  else some (ds.map (fun c => (im.pix.count c, c)))

/-- Stable insertion of one (count, colour) pair into a list sorted by
descending count: the new element goes after existing elements of equal
count, matching Python's stable `sorted(..., reverse=True)`. -/
def insertCountDesc (x : Nat × RGBA) : List (Nat × RGBA) → List (Nat × RGBA)
  | [] => [x]
  | y :: ys => if y.1 < x.1 then x :: y :: ys else y :: insertCountDesc x ys

/-- Model of the source's `sorted(colors, key=getKey, reverse=True)`:
stable sort by descending count. -/
def sortCountDesc (l : List (Nat × RGBA)) : List (Nat × RGBA) :=
  l.foldl (fun acc x => insertCountDesc x acc) []

/-- Source `cmpTup(tupleA, tupleB)` (lines 307-311): every one of the four
channels within a tolerance band of 10.  The Python comparisons
a > b + 10 and a < b - 10 are over signed integers; on naturals they are
b + 10 < a and a + 10 < b respectively. -/
def cmpTup (tupleA tupleB : RGBA) : Bool :=
  !(decide (tupleB.r + 10 < tupleA.r) || decide (tupleA.r + 10 < tupleB.r))
  && !(decide (tupleB.g + 10 < tupleA.g) || decide (tupleA.g + 10 < tupleB.g))
  && !(decide (tupleB.b + 10 < tupleA.b) || decide (tupleA.b + 10 < tupleB.b))
  && !(decide (tupleB.a + 10 < tupleA.a) || decide (tupleA.a + 10 < tupleB.a))

/-- Source `convertBlackAndWhite(image, mode)` (lines 284-346).
In `background` mode the most frequent colour (histogram entry 0) maps to
white and everything else to black; in `foreground` mode the second most
frequent colour (entry 1) maps to black and everything else to white; both
use the fuzzy `cmpTup` match and raise (modelled `none`) when the indexed
entry does not exist or when `getcolors` returned None.  The filter modes
threshold the grayscale pixel against the 1x1-thumbnail average: darker
maps pixels strictly below the average to black, lighter maps pixels
strictly above it to black; the mode-'1' result converted back to RGBA
makes every output pixel pure black or pure white.  On an image with no
pixels, reading the 1x1-thumbnail average raises (modelled `none`), so the
filter modes fail there. -/
def convertBlackAndWhite (image : Img) (mode : BWMode) : Option Img :=
  match mode with
  | BWMode.background =>
    match getcolors (convertRGBA image) with
    | none => none
    | some colors =>
      match (sortCountDesc colors)[0]? with
      | none => none
      | some entry =>
        let filterColour := entry.2
        some { image with pix := image.pix.map (fun p =>
          if cmpTup p filterColour then colWhite else colBlack) }
  | BWMode.foreground =>
    match getcolors (convertRGBA image) with
    | none => none
    | some colors =>
      match (sortCountDesc colors)[1]? with
      | none => none
      | some entry =>
        let filterColour := entry.2
        some { image with pix := image.pix.map (fun p =>
          if !(cmpTup p filterColour) then colWhite else colBlack) }
  | BWMode.filterDarker =>
    match averageColour image with
    | none => none
    | some avg =>
      some { image with pix := image.pix.map (fun p =>
        if luminance p < avg then colBlack else colWhite) }
  | BWMode.filterLighter =>
    match averageColour image with
    | none => none
    | some avg =>
      some { image with pix := image.pix.map (fun p =>
        if avg < luminance p then colBlack else colWhite) }

/-!
Concrete images used to instantiate theorems.
-/

/-- A 2x2 image with four distinct pixels. -/
def imgFour : Img :=
  ⟨2, 2, [⟨10, 20, 30, 255⟩, ⟨40, 50, 60, 255⟩, ⟨70, 80, 90, 128⟩, ⟨100, 110, 120, 0⟩]⟩

/-- A 3x1 image. -/
def imgRow : Img := ⟨3, 1, [⟨1, 2, 3, 4⟩, ⟨5, 6, 7, 8⟩, ⟨9, 10, 11, 12⟩]⟩

/-- A 1x1 single-colour image. -/
def imgOne : Img := ⟨1, 1, [⟨7, 7, 7, 255⟩]⟩

/-- A 2x2 image in a single colour. -/
def imgUniform : Img := ⟨2, 2, List.replicate 4 ⟨3, 9, 2, 255⟩⟩

/-- A 257x1 image whose 257 pixels all have distinct colours, exceeding the
256-colour cap of `getcolors`. -/
def imgManyColours : Img :=
  ⟨257, 1, (List.range 257).map (fun i => ⟨i % 256, i / 256, 0, 255⟩)⟩

/-- A 2x2 image with dark and light pixels. -/
def imgContrast : Img :=
  ⟨2, 2, [⟨0, 0, 0, 255⟩, ⟨255, 255, 255, 255⟩, ⟨200, 10, 10, 255⟩, ⟨10, 200, 10, 255⟩]⟩

/-- A 4x4 image with sixteen distinct pixels. -/
def imgGrid : Img :=
  ⟨4, 4, (List.range 16).map (fun i => ⟨i, 2 * i, 3 * i, 255⟩)⟩

/-!
Helper lemmas about the primitives.
-/

@[simp] theorem imageNew_width (w h : Nat) (c : RGBA) : (imageNew w h c).width = w := rfl

@[simp] theorem imageNew_height (w h : Nat) (c : RGBA) : (imageNew w h c).height = h := rfl

@[simp] theorem pasteMask_width (dst src : Img) (px py : ℤ) (mask : Img) :
    (pasteMask dst src px py mask).width = dst.width := rfl

@[simp] theorem pasteMask_height (dst src : Img) (px py : ℤ) (mask : Img) :
    (pasteMask dst src px py mask).height = dst.height := rfl

@[simp] theorem filterBLUR_width (im : Img) : (filterBLUR im).width = im.width := rfl

@[simp] theorem filterBLUR_height (im : Img) : (filterBLUR im).height = im.height := rfl

@[simp] theorem applyBlurN_width (n : Nat) (im : Img) : (applyBlurN n im).width = im.width := by
  induction n generalizing im with
  | zero => rfl
  | succ n ih => simpa [applyBlurN] using ih (filterBLUR im)

@[simp] theorem applyBlurN_height (n : Nat) (im : Img) : (applyBlurN n im).height = im.height := by
  induction n generalizing im with
  | zero => rfl
  | succ n ih => simpa [applyBlurN] using ih (filterBLUR im)

/-- Reading a replicated list at an in-range index gives the replicated value. -/
theorem getD_replicate_of_lt {n i : Nat} {c d : RGBA} (h : i < n) :
    (List.replicate n c).getD i d = c := by
  simp [List.getD_eq_getElem?_getD, List.getElem?_replicate, h]

/-- Reading a uniform canvas inside its bounds gives the canvas colour. -/
theorem imageNew_get {w h x y : Nat} (c : RGBA) (hx : x < w) (hy : y < h) :
    (imageNew w h c).get x y = c := by
  have hidx : y * w + x < w * h := by
    calc y * w + x < y * w + w := by omega
    _ = (y + 1) * w := by ring
    _ ≤ h * w := Nat.mul_le_mul_right w hy
    _ = w * h := Nat.mul_comm h w
  simpa [imageNew, Img.get] using getD_replicate_of_lt hidx

/-- Mapping index lookup over the full index range rebuilds the list. -/
theorem range_map_getD (l : List RGBA) (d : RGBA) :
    (List.range l.length).map (fun i => l.getD i d) = l := by
  apply List.ext_getElem
  · simp
  · intro i h1 h2
    simp [List.getD_eq_getElem?_getD, List.getElem?_eq_getElem h2]

/-!
Claim theorems.
-/

/-- C2: for every image of width w and height h, every border b, offset
(ox, oy) and iteration count n, `addDropShadowComplex` builds an
intermediate canvas of exactly width w + abs ox + 2b and height
h + abs oy + 2b filled with the background colour, pastes a flat
shadow-colour silhouette at (b + max(ox,0), b + max(oy,0)) masked by the
source image's own alpha, blurs the whole canvas n times sequentially, and
then pastes the original image at (b - min(ox,0), b - min(oy,0)), again
masked by its own alpha: the translated source canvas coincides with the
pipeline written from the specification's words, and its dimensions are
exactly the stated ones. -/
theorem addDropShadowComplex_follows_spec_pipeline (image : Img) (iterations border : Nat)
    (offset : ℤ × ℤ) (backgroundColour shadowColour : RGBA) :
    addDropShadowCanvas image iterations border offset backgroundColour shadowColour
      = dropShadowSpecCanvas image iterations border offset backgroundColour shadowColour
    ∧ (addDropShadowCanvas image iterations border offset backgroundColour shadowColour).width
      = image.width + offset.1.natAbs + 2 * border
    ∧ (addDropShadowCanvas image iterations border offset backgroundColour shadowColour).height
      = image.height + offset.2.natAbs + 2 * border := by
  refine ⟨rfl, ?_, ?_⟩ <;> simp [addDropShadowCanvas]

/-- C3: for every input image and every iterations, border and offset, the
image returned by `addDropShadowComplex` has exactly the width and height
of the input image: the oversized canvas is resized back to the original
dimensions as the final step. -/
theorem addDropShadowComplex_preserves_dims (image : Img) (iterations border : Nat)
    (offset : ℤ × ℤ) (backgroundColour shadowColour : RGBA) :
    (addDropShadowComplex image iterations border offset backgroundColour shadowColour).width
      = image.width
    ∧ (addDropShadowComplex image iterations border offset backgroundColour shadowColour).height
      = image.height :=
  ⟨rfl, rfl⟩

/-- C6: for every image and offset (ox, oy), `addDropShadowSimple` returns
exactly `addDropShadowComplex` with 11 iterations, border max(abs ox, abs oy),
transparent white background and semi-transparent black shadow. -/
theorem addDropShadowSimple_is_complex_instance (image : Img) (offset : ℤ × ℤ) :
    addDropShadowSimple image offset
      = addDropShadowComplex image 11 (max offset.1.natAbs offset.2.natAbs) offset
          ⟨255, 255, 255, 0⟩ ⟨0, 0, 0, 85⟩ :=
  rfl

/-- Python int() of a natural-number rational is that number. -/
theorem pyInt_natCast (n : ℕ) : pyInt (n : ℚ) = (n : ℤ) := by
  unfold pyInt
  rw [if_neg (not_lt.mpr (by positivity))]
  exact Int.floor_natCast n

/-- Doubling then halving restores the width exactly. -/
theorem resizeImage_two_half_width (im : Img) :
    (resizeImage (resizeImage im 2) (1 / 2)).width = im.width := by
  show (pyInt (((resizeImage im 2).width : ℚ) * (1 / 2))).toNat = im.width
  have h1 : (resizeImage im 2).width = 2 * im.width := by
    show (pyInt ((im.width : ℚ) * 2)).toNat = 2 * im.width
    have h : ((im.width : ℚ) * 2) = ((2 * im.width : ℕ) : ℚ) := by push_cast; ring
    rw [h, pyInt_natCast, Int.toNat_natCast]
  rw [h1]
  have h : ((2 * im.width : ℕ) : ℚ) * (1 / 2) = ((im.width : ℕ) : ℚ) := by push_cast; ring
  rw [h, pyInt_natCast, Int.toNat_natCast]

/-- Doubling then halving restores the height exactly. -/
theorem resizeImage_two_half_height (im : Img) :
    (resizeImage (resizeImage im 2) (1 / 2)).height = im.height := by
  show (pyInt (((resizeImage im 2).height : ℚ) * (1 / 2))).toNat = im.height
  have h1 : (resizeImage im 2).height = 2 * im.height := by
    show (pyInt ((im.height : ℚ) * 2)).toNat = 2 * im.height
    have h : ((im.height : ℚ) * 2) = ((2 * im.height : ℕ) : ℚ) := by push_cast; ring
    rw [h, pyInt_natCast, Int.toNat_natCast]
  rw [h1]
  have h : ((2 * im.height : ℕ) : ℚ) * (1 / 2) = ((im.height : ℕ) : ℚ) := by push_cast; ring
  rw [h, pyInt_natCast, Int.toNat_natCast]

/-- C8: for every image, `resizeImage` with factor 2 followed by
`resizeImage` with factor 0.5 yields an image whose width and height each
equal the original dimension to within one pixel (here in fact exactly). -/
theorem resizeImage_double_half_roundtrip (im : Img) :
    (((resizeImage (resizeImage im 2) (1 / 2)).width : ℤ) - (im.width : ℤ)).natAbs ≤ 1
    ∧ (((resizeImage (resizeImage im 2) (1 / 2)).height : ℤ) - (im.height : ℤ)).natAbs ≤ 1 := by
  rw [resizeImage_two_half_width, resizeImage_two_half_height]
  simp

/-- C9: for every image with more than 256 distinct colours,
`convertBlackAndWhite` in background or foreground mode fails before
producing any output: `getcolors` hits its default 256-colour cap and
returns no histogram, and the subsequent sort raises (modelled as `none`). -/
theorem convertBW_over_colour_cap (im : Img) (h : 256 < numDistinct im) :
    convertBlackAndWhite im BWMode.background = none
    ∧ convertBlackAndWhite im BWMode.foreground = none := by
  have hg : getcolors (convertRGBA im) = none := by
    unfold getcolors convertRGBA
    exact if_pos h
  constructor <;> simp [convertBlackAndWhite, hg]

set_option maxRecDepth 4096 in
/-- Witness for C9: a concrete 257-colour image on which both histogram
modes fail. -/
theorem convertBW_over_colour_cap_witness :
    256 < numDistinct imgManyColours
    ∧ convertBlackAndWhite imgManyColours BWMode.background = none
    ∧ convertBlackAndWhite imgManyColours BWMode.foreground = none := by
  have h : 256 < numDistinct imgManyColours := by decide
  exact ⟨h, (convertBW_over_colour_cap imgManyColours h).1,
    (convertBW_over_colour_cap imgManyColours h).2⟩

/-- C4 counterexample: the claim says background mode fails on every image
with fewer than 2 distinct colours, but on a concrete single-colour image
background mode succeeds and returns an all-white image (only foreground
mode indexes the second histogram entry). -/
theorem convertBW_background_single_colour_succeeds :
    numDistinct imgOne < 2
    ∧ convertBlackAndWhite imgOne BWMode.background
        = some ⟨1, 1, [⟨255, 255, 255, 255⟩]⟩ := by decide

/-- C4 amended: for every image with fewer than 2 distinct colours,
foreground mode fails by indexing the 2nd-ranked histogram entry, while
background mode (which indexes the 1st-ranked entry) fails exactly when the
image has no colours at all. -/
theorem convertBW_few_colours (im : Img) (h : numDistinct im < 2) :
    convertBlackAndWhite im BWMode.foreground = none
    ∧ (convertBlackAndWhite im BWMode.background = none ↔ numDistinct im = 0) := by
  have h2 : numDistinct im = 0 ∨ numDistinct im = 1 := by omega
  rcases h2 with h0 | h1
  · have hd : dedup im.pix = [] := List.length_eq_zero.mp h0
    have hg : getcolors (convertRGBA im) = some [] := by
      simp [getcolors, convertRGBA, hd]
    refine ⟨?_, ?_⟩
    · simp [convertBlackAndWhite, hg, sortCountDesc]
    · simp [convertBlackAndWhite, hg, sortCountDesc, numDistinct, h0, hd]
  · obtain ⟨c, hc⟩ := List.length_eq_one.mp h1
    have hg : getcolors (convertRGBA im) = some [(im.pix.count c, c)] := by
      simp [getcolors, convertRGBA, hc]
    refine ⟨?_, ?_⟩
    · simp [convertBlackAndWhite, hg, sortCountDesc, insertCountDesc]
    · simp [convertBlackAndWhite, hg, sortCountDesc, insertCountDesc, numDistinct, h1, hc]

/-- Witness for the amended C4: a concrete uniform image with one distinct
colour, on which foreground mode fails and background mode succeeds. -/
theorem convertBW_few_colours_witness :
    numDistinct imgUniform < 2
    ∧ (convertBlackAndWhite imgUniform BWMode.foreground = none
    ∧ (convertBlackAndWhite imgUniform BWMode.background = none
        ↔ numDistinct imgUniform = 0)) :=
  ⟨by decide, convertBW_few_colours imgUniform (by decide)⟩

/-- Reading a mapped list at an in-range index maps the read of the list. -/
theorem getD_map_lt {f : RGBA → RGBA} {l : List RGBA} {i : Nat} (h : i < l.length)
    (d d' : RGBA) : (l.map f).getD i d = f (l.getD i d') := by
  simp [List.getD_eq_getElem?_getD, List.getElem?_map, List.getElem?_eq_getElem h]

/-- C5 counterexample: the claim quantifies over every input image, but on
the empty image the source raises IndexError at `getpixel((0, 0))` (the 1x1
thumbnail of an image with no pixels still has no pixel), so both filter
modes raise instead of returning an image. -/
theorem convertBW_filter_empty_raises :
    convertBlackAndWhite emptyImg BWMode.filterDarker = none
    ∧ convertBlackAndWhite emptyImg BWMode.filterLighter = none := by decide

/-- C5 amended: for every input image with at least one pixel,
`convertBlackAndWhite` in filter-darker and filter-lighter mode returns an
image in which every pixel is exactly (0,0,0,255) or (255,255,255,255); a
single average luminance comes from downsampling the grayscale image to
1x1, a pixel strictly below that average becomes black in filter-darker
mode (every other pixel white), and filter-lighter is inverted (strictly
above the average becomes black).  On the empty image both modes raise
instead of returning an image. -/
theorem convertBW_filter_pure_blackwhite (im : Img) (hne : im.pix.length ≠ 0) :
    ∃ avg outD outL,
      averageColour im = some avg
      ∧ convertBlackAndWhite im BWMode.filterDarker = some outD
      ∧ convertBlackAndWhite im BWMode.filterLighter = some outL
      ∧ (∀ p ∈ outD.pix, p = ⟨0, 0, 0, 255⟩ ∨ p = ⟨255, 255, 255, 255⟩)
      ∧ (∀ p ∈ outL.pix, p = ⟨0, 0, 0, 255⟩ ∨ p = ⟨255, 255, 255, 255⟩)
      ∧ (∀ i, i < im.pix.length →
          (outD.pix.getD i colClear = ⟨0, 0, 0, 255⟩
            ↔ luminance (im.pix.getD i colClear) < avg)
          ∧ (outL.pix.getD i colClear = ⟨0, 0, 0, 255⟩
            ↔ avg < luminance (im.pix.getD i colClear))) := by
  obtain ⟨avg, havg⟩ : ∃ a, averageColour im = some a := by
    unfold averageColour
    rw [if_neg hne]
    exact ⟨_, rfl⟩
  have hD : convertBlackAndWhite im BWMode.filterDarker
      = some { im with pix := im.pix.map (fun p =>
          if luminance p < avg then colBlack else colWhite) } := by
    simp only [convertBlackAndWhite, havg]
  have hL : convertBlackAndWhite im BWMode.filterLighter
      = some { im with pix := im.pix.map (fun p =>
          if avg < luminance p then colBlack else colWhite) } := by
    simp only [convertBlackAndWhite, havg]
  refine ⟨avg, _, _, havg, hD, hL, ?_, ?_, ?_⟩
  · intro p hp
    obtain ⟨q, hq, rfl⟩ := List.mem_map.mp hp
    by_cases hc : luminance q < avg <;> simp [hc, colBlack, colWhite]
  · intro p hp
    obtain ⟨q, hq, rfl⟩ := List.mem_map.mp hp
    by_cases hc : avg < luminance q <;> simp [hc, colBlack, colWhite]
  · intro i hi
    constructor
    · rw [getD_map_lt hi colClear colClear]
      by_cases hc : luminance (im.pix.getD i colClear) < avg <;>
        simp [hc, colBlack, colWhite]
    · rw [getD_map_lt hi colClear colClear]
      by_cases hc : avg < luminance (im.pix.getD i colClear) <;>
        simp [hc, colBlack, colWhite]

/-- Witness for the amended C5: the filter modes on a concrete non-empty
contrasting image. -/
theorem convertBW_filter_pure_blackwhite_witness :
    imgContrast.pix.length ≠ 0
    ∧ (∃ avg outD outL,
      averageColour imgContrast = some avg
      ∧ convertBlackAndWhite imgContrast BWMode.filterDarker = some outD
      ∧ convertBlackAndWhite imgContrast BWMode.filterLighter = some outL
      ∧ (∀ p ∈ outD.pix, p = ⟨0, 0, 0, 255⟩ ∨ p = ⟨255, 255, 255, 255⟩)
      ∧ (∀ p ∈ outL.pix, p = ⟨0, 0, 0, 255⟩ ∨ p = ⟨255, 255, 255, 255⟩)
      ∧ (∀ i, i < imgContrast.pix.length →
          (outD.pix.getD i colClear = ⟨0, 0, 0, 255⟩
            ↔ luminance (imgContrast.pix.getD i colClear) < avg)
          ∧ (outL.pix.getD i colClear = ⟨0, 0, 0, 255⟩
            ↔ avg < luminance (imgContrast.pix.getD i colClear)))) :=
  ⟨by decide, convertBW_filter_pure_blackwhite imgContrast (by decide)⟩

/-- Row-major index bound for in-range coordinates. -/
theorem index_lt {x y w h : Nat} (hx : x < w) (hy : y < h) : y * w + x < w * h := by
  calc y * w + x < y * w + w := by omega
  _ = (y + 1) * w := by ring
  _ ≤ h * w := Nat.mul_le_mul_right w hy
  _ = w * h := Nat.mul_comm h w

/-- Reading a range-map list at an in-range index applies the generator. -/
theorem getD_range_map {n i : Nat} (f : Nat → RGBA) (d : RGBA) (h : i < n) :
    ((List.range n).map f).getD i d = f i := by
  simp [List.getD_eq_getElem?_getD, List.getElem?_map, List.getElem?_range h]

/-- Column recovered from a row-major index. -/
theorem idx_mod (x y w : Nat) (hx : x < w) : (y * w + x) % w = x := by
  rw [Nat.mul_comm, Nat.mul_add_mod, Nat.mod_eq_of_lt hx]

/-- Row recovered from a row-major index. -/
theorem idx_div (x y w : Nat) (hx : x < w) : (y * w + x) / w = y := by
  rw [Nat.mul_comm, Nat.mul_add_div (by omega), Nat.div_eq_of_lt hx, Nat.add_zero]

/-- C10: for every image of width w and height h and every padding p with
2p at most min(w, h), `removeImagePadding` returns a centre crop of
dimensions exactly (w - 2p, h - 2p) whose pixel (x, y) is the input's pixel
(x + p, y + p), and (in the heap model) allocates a new buffer while
leaving the input image's buffer unchanged. -/
theorem removeImagePadding_centre_crop (im : Img) (p : Nat)
    (hw : 2 * p ≤ im.width) (hh : 2 * p ≤ im.height) :
    (removeImagePadding im p).width = im.width - 2 * p
    ∧ (removeImagePadding im p).height = im.height - 2 * p
    ∧ (∀ x y, x < im.width - 2 * p → y < im.height - 2 * p →
        (removeImagePadding im p).get x y = im.get (x + p) (y + p))
    ∧ (∀ heap r, r < heap.length →
        (removeImagePaddingH heap r p).1.getD r emptyImg = heap.getD r emptyImg) := by
  refine ⟨?_, ?_, ?_, ?_⟩
  · show (((im.width : ℤ) - (p : ℤ)) - (p : ℤ)).toNat = im.width - 2 * p
    omega
  · show (((im.height : ℤ) - (p : ℤ)) - (p : ℤ)).toNat = im.height - 2 * p
    omega
  · intro x y hx hy
    have hxw : x < (((im.width : ℤ) - (p : ℤ)) - (p : ℤ)).toNat := by omega
    have hyh : y < (((im.height : ℤ) - (p : ℤ)) - (p : ℤ)).toNat := by omega
    simp only [removeImagePadding, cropI, Img.get]
    rw [getD_range_map _ colClear (index_lt hxw hyh)]
    rw [idx_mod x y _ hxw, idx_div x y _ hxw]
    rw [if_pos (by omega)]
    have e1 : ((p : ℤ) + (x : ℤ)).toNat = x + p := by omega
    have e2 : ((p : ℤ) + (y : ℤ)).toNat = y + p := by omega
    rw [e1, e2]
  · intro heap r hr
    simp [removeImagePaddingH, List.getD_eq_getElem?_getD, List.getElem?_append_left hr]

/-- Witness for C10: the centre crop of a concrete 4x4 image with padding 1. -/
theorem removeImagePadding_centre_crop_witness :
    2 * 1 ≤ imgGrid.width ∧ 2 * 1 ≤ imgGrid.height
    ∧ ((removeImagePadding imgGrid 1).width = imgGrid.width - 2 * 1
    ∧ (removeImagePadding imgGrid 1).height = imgGrid.height - 2 * 1
    ∧ (∀ x y, x < imgGrid.width - 2 * 1 → y < imgGrid.height - 2 * 1 →
        (removeImagePadding imgGrid 1).get x y = imgGrid.get (x + 1) (y + 1))
    ∧ (∀ heap r, r < heap.length →
        (removeImagePaddingH heap r 1).1.getD r emptyImg = heap.getD r emptyImg)) :=
  ⟨by decide, by decide, removeImagePadding_centre_crop imgGrid 1 (by decide) (by decide)⟩

/-- C7: for every (well-formed) image, `roundCorners` with radius 0
produces a fully opaque mask, and an output equal to the input image
alpha-composited onto a fully transparent background, which is
pixel-identical to the input (no corner arc, dimensions unchanged). -/
theorem roundCorners_radius_zero (im : Img) (hpix : im.pix.length = im.width * im.height) :
    roundCornersMask im.width im.height 0 = imageNew im.width im.height colWhite
    ∧ roundCorners im 0
      = pasteMask (imageNew im.width im.height colClear) im 0 0
          (imageNew im.width im.height colWhite)
    ∧ roundCorners im 0 = im := by
  refine ⟨rfl, rfl, ?_⟩
  have hmap : ∀ i ∈ List.range (im.width * im.height),
      pastePixel (imageNew im.width im.height colClear) im 0 0
        (imageNew im.width im.height colWhite) (i % im.width) (i / im.width)
      = im.pix.getD i colClear := by
    intro i hi
    have hiw : i < im.width * im.height := List.mem_range.mp hi
    have hw0 : 0 < im.width := by
      rcases Nat.eq_zero_or_pos im.width with hz | hp
      · rw [hz, Nat.zero_mul] at hiw
        omega
      · exact hp
    have hx : i % im.width < im.width := Nat.mod_lt _ hw0
    have hy : i / im.width < im.height := Nat.div_lt_of_lt_mul hiw
    simp only [pastePixel, sub_zero, Int.toNat_natCast]
    set x := i % im.width with hxd
    set y := i / im.width with hyd
    have hcond : (0 : ℤ) ≤ (x : ℤ) ∧ (x : ℤ) < (im.width : ℤ)
        ∧ (0 : ℤ) ≤ (y : ℤ) ∧ (y : ℤ) < (im.height : ℤ) :=
      ⟨Int.natCast_nonneg x, by exact_mod_cast hx, Int.natCast_nonneg y, by exact_mod_cast hy⟩
    rw [if_pos hcond]
    rw [imageNew_get colWhite hx hy]
    rw [if_pos (show colWhite.a = 255 from rfl)]
    show im.pix.getD (y * im.width + x) colClear = im.pix.getD i colClear
    congr 1
    rw [hxd, hyd, Nat.mul_comm (i / im.width) im.width]
    exact Nat.div_add_mod i im.width
  have hlist : (List.range (im.width * im.height)).map (fun i =>
      pastePixel (imageNew im.width im.height colClear) im 0 0
        (imageNew im.width im.height colWhite) (i % im.width) (i / im.width)) = im.pix := by
    rw [List.map_congr_left hmap, ← hpix, range_map_getD]
  show Img.mk im.width im.height ((List.range (im.width * im.height)).map fun i =>
      pastePixel (imageNew im.width im.height colClear) im 0 0
        (imageNew im.width im.height colWhite) (i % im.width) (i / im.width)) = im
  rw [hlist]

/-- Witness for C7: radius-zero rounding of a concrete 2x2 image. -/
theorem roundCorners_radius_zero_witness :
    imgFour.pix.length = imgFour.width * imgFour.height
    ∧ (roundCornersMask imgFour.width imgFour.height 0
        = imageNew imgFour.width imgFour.height colWhite
    ∧ roundCorners imgFour 0
        = pasteMask (imageNew imgFour.width imgFour.height colClear) imgFour 0 0
            (imageNew imgFour.width imgFour.height colWhite)
    ∧ roundCorners imgFour 0 = imgFour) :=
  ⟨by decide, roundCorners_radius_zero imgFour (by decide)⟩

/-- Appending a buffer does not change existing heap entries. -/
theorem getD_snoc (l : List Img) (x : Img) (r : Nat) (hr : r < l.length) :
    (l ++ [x]).getD r emptyImg = l.getD r emptyImg := by
  simp [List.getD_eq_getElem?_getD, List.getElem?_append_left hr]

/-- Writing a buffer past an entry does not change that entry. -/
theorem getD_set_past (l : List Img) (i : Nat) (x : Img) (r : Nat) (hr : r < i) :
    (l.set i x).getD r emptyImg = l.getD r emptyImg := by
  simp [List.getD_eq_getElem?_getD, List.getElem?_set_ne (by omega : i ≠ r)]

/-- C1 counterexample: the claim says `roundCorners` mutates the passed
image object and returns the same image reference; on a concrete heap
holding one 2x2 image, with radius 1, the returned reference differs from
the passed one and the passed image's buffer is unchanged. -/
theorem roundCorners_not_in_place :
    (roundCornersH [imgFour] 0 1).2 ≠ 0
    ∧ (roundCornersH [imgFour] 0 1).1.getD 0 emptyImg = imgFour := by decide

/-- C1 amended: for every heap, every valid image reference and every
radius, `roundCorners` does not mutate the passed image object: it returns
a freshly allocated reference distinct from the passed one, and the passed
image's buffer is unchanged — like every other operation of the library,
it leaves its input intact and returns a new image. -/
theorem roundCorners_allocates_new_image (heap : List Img) (r radius : Nat)
    (hr : r < heap.length) :
    (roundCornersH heap r radius).2 ≠ r
    ∧ (roundCornersH heap r radius).1.getD r emptyImg = heap.getD r emptyImg := by
  constructor
  · simp only [roundCornersH]
    simp [List.length_set, List.length_append]
    omega
  · simp only [roundCornersH]
    rw [getD_set_past, getD_set_past, getD_set_past, getD_set_past, getD_set_past,
      getD_snoc, getD_snoc, getD_set_past, getD_snoc]
    all_goals try simp [List.length_set, List.length_append]
    all_goals omega

/-- Witness for the amended C1: a concrete two-image heap, rounding the
second image with radius 2. -/
theorem roundCorners_allocates_new_image_witness :
    1 < [imgFour, imgRow].length
    ∧ ((roundCornersH [imgFour, imgRow] 1 2).2 ≠ 1
    ∧ (roundCornersH [imgFour, imgRow] 1 2).1.getD 1 emptyImg
        = [imgFour, imgRow].getD 1 emptyImg) :=
  ⟨by decide, roundCorners_allocates_new_image [imgFour, imgRow] 1 2 (by decide)⟩
